import Mathlib

set_option autoImplicit false

/-
Verification of the multi-buffered frame-resource and GPU/CPU synchronization
core of the TexWavesApp / ShapesApp demos
(src/Assignment1/Castle_Woonhak_Kong.cpp and src/unnamed/part_000).

The development shallowly embeds the frame loop:
  * the ring-index advance and fence wait of `Update`
    (Castle_Woonhak_Kong.cpp lines 236-248, part_000 lines 209-221),
  * the fence stamping of `Draw` (line 309: `mCurrFrameResource->Fence = ++mCurrentFence`),
  * the dirty-count propagation passes `UpdateObjectCBs` / `UpdateMaterialCBs`
    and the material animation `AnimateMaterials`,
  * the constant-buffer addressing of `BuildConstantBufferViews` and
    `DrawRenderItems`.

Matrix payloads (XMFLOAT4X4 world / texture / material transforms and the
derived constant records) are floating-point data whose numeric content is
irrelevant to every claim below; they are abstracted to an opaque `Nat`
payload, with the record recomputation carrying the payload through.
The ring size `gNumFrameResources` is the literal 3 in the source; the
definitions take it as a parameter `N` so the theorems can quantify the way
the specification does, and the constant is kept alongside.
-/

/-- The constant `gNumFrameResources = 3` (both variants, line 19 / line 26). -/
def gNumFrameResources : Nat := 3

/- ----------------------------------------------------------------------
   Ring index and fence synchronization (TexWavesApp::Update lines 236-248,
   TexWavesApp::Draw lines 308-314; identically ShapesApp lines 209-221).
   The GPU is the external timeline-fence collaborator: its completed value
   only ever covers values that were actually signalled, so it is capped by
   `currentFence`.
   ---------------------------------------------------------------------- -/

/-- The synchronization-relevant state of the frame loop:
`currFrameResourceIndex` is `mCurrFrameResourceIndex`, `fences` holds each
frame resource's `Fence` member (0 until first use), `currentFence` is
`mCurrentFence`, and `completed` is the fence collaborator's
`GetCompletedValue()`. -/
structure SyncState where
  currFrameResourceIndex : Nat
  fences : List Nat
  currentFence : Nat
  completed : Nat
deriving Repr, DecidableEq

/-- Initial state: index 0, every slot's `Fence` 0, `mCurrentFence` 0,
nothing completed. -/
def initSync (N : Nat) : SyncState :=
  { currFrameResourceIndex := 0
    fences := List.replicate N 0
    currentFence := 0
    completed := 0 }

/-- Asynchronous GPU progress between frames: the completed value advances by
some amount `g`, never past the last signalled value `currentFence`. -/
def gpuAdvance (g : Nat) (s : SyncState) : SyncState :=
  { s with completed := min (s.completed + g) s.currentFence }

/-- The start of `Update` (lines 236-248): cycle the ring index, then, if the
selected slot's `Fence` is nonzero and the completed value is still below it,
block until the completed value reaches it (the `WaitForSingleObject` on
`SetEventOnCompletion`); `completed` afterwards is the value observed when
recording begins. -/
def updateWait (N : Nat) (s : SyncState) : SyncState :=
  let idx := (s.currFrameResourceIndex + 1) % N
  let f := s.fences.getD idx 0
  let completed := if f ≠ 0 ∧ s.completed < f then f else s.completed
  { s with currFrameResourceIndex := idx, completed := completed }

/-- The end of `Draw` (lines 308-314): stamp the current slot's checkpoint
with a freshly incremented `mCurrentFence` and enqueue the signal. -/
def drawSubmit (s : SyncState) : SyncState :=
  let newFence := s.currentFence + 1
  { s with
      currentFence := newFence
      fences := s.fences.set s.currFrameResourceIndex newFence }

/-- One whole frame advance: GPU progress observed since the last frame, the
`Update`-side ring advance and wait, then the `Draw`-side submit and stamp. -/
def frameStep (N g : Nat) (s : SyncState) : SyncState :=
  drawSubmit (updateWait N (gpuAdvance g s))

/-- Run the frame loop over a whole sequence of per-frame GPU progress
amounts. -/
def runFrames (N : Nat) : List Nat → SyncState → SyncState
  | [], s => s
  | g :: gs, s => runFrames N gs (frameStep N g s)

/-- Recording into the current slot is safe: either the slot was never
submitted (`Fence = 0`) or its previously submitted work is finished
(checkpoint ≤ completed value). -/
def recordSafe (s : SyncState) : Prop :=
  s.fences.getD s.currFrameResourceIndex 0 = 0 ∨
    s.fences.getD s.currFrameResourceIndex 0 ≤ s.completed

instance (s : SyncState) : Decidable (recordSafe s) := by
  unfold recordSafe; infer_instance

/- ----------------------------------------------------------------------
   Dirty-tracking object/material tables and the per-frame update passes
   (RenderItem lines 23-53, TexWavesApp::UpdateObjectCBs lines 406-428,
   TexWavesApp::UpdateMaterialCBs lines 430-454,
   TexWavesApp::AnimateMaterials lines 382-404; the ShapesApp variant's
   UpdateObjectCBs, lines 365-385 of part_000, has the same structure).
   An upload region is the mapped record array of one UploadBuffer; a
   region entry is `none` until first written.
   ---------------------------------------------------------------------- -/

/-- A drawable item: abstracted `World`/`TexTransform` payload, the dirty
count `NumFramesDirty` (a C++ `int`), and the fixed per-object constant
buffer index `ObjCBIndex`. -/
structure RenderItem where
  World : Nat
  NumFramesDirty : Int
  ObjCBIndex : Nat
deriving Repr, DecidableEq

/-- A material: name key of `mMaterials`, constant-buffer index, abstracted
`MatTransform`/albedo payload, and its dirty count. -/
structure Material where
  Name : String
  MatCBIndex : Nat
  MatTransform : Nat
  NumFramesDirty : Int
deriving Repr, DecidableEq

/-- One upload region: the mapped array of records, indexed by constant
buffer index. -/
abbrev Region : Type := List (Option Nat)

/-- Function `UpdateObjectCBs` (lines 406-428): walk `mAllRitems` in order; for each
item with `NumFramesDirty > 0`, recompute its object constants (payload
carried through) and `CopyData` them at `ObjCBIndex` into the current ring
slot's object region, then decrement the dirty count.  Returns the updated
item list and region. -/
def updateObjectCBs : List RenderItem → Region → List RenderItem × Region
  | [], r => ([], r)
  | e :: rest, r =>
    if 0 < e.NumFramesDirty then
      let out := updateObjectCBs rest (r.set e.ObjCBIndex (some e.World))
      ({ e with NumFramesDirty := e.NumFramesDirty - 1 } :: out.1, out.2)
    else
      let out := updateObjectCBs rest r
      (e :: out.1, out.2)

/-- Function `UpdateMaterialCBs` (lines 430-454): walk the material table; for each
material with `NumFramesDirty > 0`, `CopyData` its constants at `MatCBIndex`
into the current slot's material region and decrement.  The third component
is the trace of `CopyData` calls (the `MatCBIndex` of each upload
performed), recorded to count uploads. -/
def updateMaterialCBs : List Material → Region → List Material × Region × List Nat
  | [], r => ([], r, [])
  | m :: rest, r =>
    if 0 < m.NumFramesDirty then
      let out := updateMaterialCBs rest (r.set m.MatCBIndex (some m.MatTransform))
      ({ m with NumFramesDirty := m.NumFramesDirty - 1 } :: out.1,
        out.2.1, m.MatCBIndex :: out.2.2)
    else
      let out := updateMaterialCBs rest r
      (m :: out.1, out.2.1, out.2.2)

/-- Function `AnimateMaterials` (lines 382-404): scroll the texture transform of
`mMaterials["water"]` (float scroll abstracted to a payload change) and set
its `NumFramesDirty = gNumFrameResources`.  The map touches exactly the one
entry keyed "water", as the name-keyed table holds one entry per name. -/
def animateMaterials (N : Nat) (mats : List Material) : List Material :=
  mats.map fun m =>
    if m.Name = "water" then
      { m with MatTransform := m.MatTransform + 1, NumFramesDirty := (N : Int) }
    else m

/-- The whole mutable state the per-frame passes touch: the ring index, one
object region and one material region per ring slot, and the logical item
and material tables. -/
structure AppState where
  currFrameResourceIndex : Nat
  objRegions : List Region
  matRegions : List Region
  items : List RenderItem
  materials : List Material
deriving DecidableEq

/-- One frame advance with no mutation in between (`Update` without
`AnimateMaterials`): cycle the ring index (line 237), then run
`UpdateObjectCBs` and `UpdateMaterialCBs` against the now-current slot's
regions.  Also returns the material upload trace of this frame. -/
def frameAdvanceTraced (N : Nat) (s : AppState) : AppState × List Nat :=
  let idx := (s.currFrameResourceIndex + 1) % N
  let po := updateObjectCBs s.items (s.objRegions.getD idx [])
  let pm := updateMaterialCBs s.materials (s.matRegions.getD idx [])
  ({ currFrameResourceIndex := idx
     objRegions := s.objRegions.set idx po.2
     matRegions := s.matRegions.set idx pm.2.1
     items := po.1
     materials := pm.1 },
   pm.2.2)

def frameAdvance (N : Nat) (s : AppState) : AppState :=
  (frameAdvanceTraced N s).1

/-- Iterated frame advances. -/
def advanceFrames (N : Nat) : Nat → AppState → AppState
  | 0, s => s
  | k + 1, s => frameAdvance N (advanceFrames N k s)

/-- The `TexWavesApp::Update` body relevant to the tables (lines 236-254):
ring advance, then `AnimateMaterials`, then the two update passes. -/
def texWavesUpdateTraced (N : Nat) (s : AppState) : AppState × List Nat :=
  frameAdvanceTraced N { s with materials := animateMaterials N s.materials }

def texWavesUpdate (N : Nat) (s : AppState) : AppState :=
  (texWavesUpdateTraced N s).1

/-- Mutating item `i` of the table: store the new payload and set
`NumFramesDirty = gNumFrameResources` (the `markDirty` contract, as in
`RenderItem` comment lines 34-38). -/
def markItemDirty (N i v : Nat) (s : AppState) : AppState :=
  { s with
      items := s.items.modify
        (fun e => { e with World := v, NumFramesDirty := (N : Int) }) i }

/-- Mutating material `i` of the table, exactly like `AnimateMaterials`
does for the water material: change the payload, assign
`NumFramesDirty = gNumFrameResources` (line 403). -/
def markMaterialDirty (N i v : Nat) (s : AppState) : AppState :=
  { s with
      materials := s.materials.modify
        (fun m => { m with MatTransform := v, NumFramesDirty := (N : Int) }) i }

/- ----------------------------------------------------------------------
   Helper lemmas about the update passes.
   ---------------------------------------------------------------------- -/

/-- The effect of one pass on a single item: decrement when dirty. -/
def decDirtyItem (e : RenderItem) : RenderItem :=
  if 0 < e.NumFramesDirty then { e with NumFramesDirty := e.NumFramesDirty - 1 } else e

/-- The effect of one pass on a single material: decrement when dirty. -/
def decDirtyMat (m : Material) : Material :=
  if 0 < m.NumFramesDirty then { m with NumFramesDirty := m.NumFramesDirty - 1 } else m

/-- Concrete three-slot scene used by the propagation witnesses: one drawable
item (index 0), freshly marked dirty, object regions sized to one record. -/
def demoPropState : AppState :=
  { currFrameResourceIndex := 0
    objRegions := [[none], [none], [none]]
    matRegions := [[], [], []]
    items := [{ World := 7, NumFramesDirty := 3, ObjCBIndex := 0 }]
    materials := [] }

/-- The states the frame loop can reach: a scene whose tables start with
every dirty count at N (the `RenderItem` / `Material` declarations
initialize `NumFramesDirty = gNumFrameResources`), evolved by plain frame
advances, by the TexWaves `Update` (which animates the water material), and
by mutations that mark an item or material dirty. -/
inductive Reachable (N : Nat) : AppState → Prop
  | init (s : AppState)
      (hi : ∀ e ∈ s.items, e.NumFramesDirty = (N : Int))
      (hm : ∀ m ∈ s.materials, m.NumFramesDirty = (N : Int)) :
      Reachable N s
  | advance {s : AppState} : Reachable N s → Reachable N (frameAdvance N s)
  | texUpdate {s : AppState} : Reachable N s → Reachable N (texWavesUpdate N s)
  | markItem {s : AppState} (i v : Nat) :
      Reachable N s → Reachable N (markItemDirty N i v s)
  | markMaterial {s : AppState} (i v : Nat) :
      Reachable N s → Reachable N (markMaterialDirty N i v s)

/-- Concrete scene with a water material and one other material sharing the
table, used by the material-pass witnesses. -/
def demoWaterState : AppState :=
  { currFrameResourceIndex := 0
    objRegions := [[none], [none], [none]]
    matRegions := [[none, none], [none, none], [none, none]]
    items := [{ World := 7, NumFramesDirty := 3, ObjCBIndex := 0 }]
    materials :=
      [{ Name := "grass", MatCBIndex := 0, MatTransform := 4, NumFramesDirty := 3 },
       { Name := "water", MatCBIndex := 1, MatTransform := 5, NumFramesDirty := 3 }] }

/- ----------------------------------------------------------------------
   Constant-buffer addressing: the write path (UploadBuffer::CopyData),
   the TexWaves bind path (DrawRenderItems lines 1484-1513), and the
   Shapes CBV heap (BuildConstantBufferViews lines 435-463 and
   DrawRenderItems lines 1089-1113 of part_000).  GPU virtual addresses
   are modelled as naturals; `base s` is slot s's object-buffer base
   (`ObjectCB->Resource()->GetGPUVirtualAddress()`), `alignedSize` the
   256-byte-aligned record size `CalcConstantBufferByteSize(...)` shared
   by every path.
   ---------------------------------------------------------------------- -/

/-- Modelled from the spec: the `UploadBuffer` class lives in
`Common/UploadBuffer.h`, which is not under src/.  Spec section 4.1:
constructed with a record size and a capacity; `write(index, record)`
copies into the mapped region at `index * alignedRecordSize` and fails if
`index ≥ capacity`; the base GPU-visible address is exposed for binding. -/
structure UploadBuffer where
  alignedRecordSize : Nat
  capacity : Nat
  data : Region
deriving Repr, DecidableEq

/-- Byte offset of record `i` in the mapped region (spec section 4.1). -/
def UploadBuffer.writeByteOffset (b : UploadBuffer) (i : Nat) : Nat :=
  i * b.alignedRecordSize

/-- Modelled from the spec: the checked `write(index, record)` of section
4.1 — out of range is a loud failure (`none`), never a truncated write. -/
def UploadBuffer.write (b : UploadBuffer) (i v : Nat) : Option UploadBuffer :=
  if i < b.capacity then some { b with data := b.data.set i (some v) }
  else none

/-- The object pass of `UpdateObjectCBs` with every `CopyData` routed
through the checked `write`: the whole pass reports failure (`none`) the
moment a write is out of range. -/
def updateObjectCBsChecked :
    List RenderItem → UploadBuffer → Option (List RenderItem × UploadBuffer)
  | [], b => some ([], b)
  | e :: rest, b =>
    if 0 < e.NumFramesDirty then
      match b.write e.ObjCBIndex e.World with
      | none => none
      | some b' =>
        match updateObjectCBsChecked rest b' with
        | none => none
        | some out =>
          some ({ e with NumFramesDirty := e.NumFramesDirty - 1 } :: out.1, out.2)
    else
      match updateObjectCBsChecked rest b with
      | none => none
      | some out => some (e :: out.1, out.2)

/-- Sizing rule of `BuildFrameResources` (lines 1153-1160): each slot's
per-object upload region holds `mAllRitems.size()` records. -/
def buildFrameResourcesObjCapacity (items : List RenderItem) : Nat :=
  items.length

/-- Address computed by `TexWavesApp::DrawRenderItems` line 1504:
`objectCB->GetGPUVirtualAddress() + ri->ObjCBIndex * objCBByteSize`, with
`objectCB` the current slot's object buffer. -/
def texDrawObjAddress (base : Nat → Nat) (alignedSize s i : Nat) : Nat :=
  base s + i * alignedSize

/-- Address the write path stores object `i`'s constants at in slot `s`:
the slot's buffer base plus the `write` byte offset of record `i`
(Modelled from the spec, section 4.1: `index * alignedRecordSize`;
`UploadBuffer::CopyData` itself is in `Common/UploadBuffer.h`, not under
src/). -/
def writeAddress (base : Nat → Nat) (alignedSize s i : Nat) : Nat :=
  base s + i * alignedSize

/-- Descriptor heap built by `ShapesApp::BuildConstantBufferViews`
(lines 442-463): for frame resource f and object i, a CBV whose buffer
location is `base f + i * objCBByteSize` is created at heap index
`f * objCount + i` (line 453); since those indices enumerate 0, 1, 2, ...
in loop order, the heap is the list of buffer locations in heap-index
order. -/
def buildConstantBufferViews (objCount : Nat) (base : Nat → Nat)
    (alignedSize : Nat) : Nat → List Nat
  | 0 => []
  | f + 1 =>
      buildConstantBufferViews objCount base alignedSize f ++
        (List.range objCount).map fun i => base f + i * alignedSize

/-- Heap index the CBV for (frame f, object i) is created at
(`BuildConstantBufferViews` line 453: `heapIndex = frameIndex * objCount + i`). -/
def shapesHeapIndexBuild (objCount f i : Nat) : Nat := f * objCount + i

/-- Heap index `ShapesApp::DrawRenderItems` binds for object i with slot s
current (line 1105:
`cbvIndex = mCurrFrameResourceIndex * mOpaqueRitems.size() + ri->ObjCBIndex`). -/
def shapesCbvIndexDraw (objCount s i : Nat) : Nat := s * objCount + i

/-- In-region offset both code paths use for object i's constants inside a
slot's buffer: `i * objCBByteSize` (lines 450 and 1504), independent of the
slot index. -/
def objOffsetInRegion (alignedSize i : Nat) : Nat := i * alignedSize

/-- Offset formula asserted by the specification for comparison: slot-index
× drawable-count + object-index as the physical offset inside a slot's
upload region. -/
def claimedSlotOffset (objCount s i : Nat) : Nat := s * objCount + i

/- ----------------------------------------------------------------------
   Helper lemmas for the synchronization model.
   ---------------------------------------------------------------------- -/

theorem updateWait_recordSafe (N : Nat) (s : SyncState) :
    recordSafe (updateWait N s) := by
  show s.fences.getD ((s.currFrameResourceIndex + 1) % N) 0 = 0 ∨
      s.fences.getD ((s.currFrameResourceIndex + 1) % N) 0 ≤
        (if s.fences.getD ((s.currFrameResourceIndex + 1) % N) 0 ≠ 0 ∧
            s.completed < s.fences.getD ((s.currFrameResourceIndex + 1) % N) 0 then
          s.fences.getD ((s.currFrameResourceIndex + 1) % N) 0
        else s.completed)
  split
  next h => exact Or.inr (Nat.le_refl _)
  next h =>
    by_cases h0 : s.fences.getD ((s.currFrameResourceIndex + 1) % N) 0 = 0
    · exact Or.inl h0
    · exact Or.inr (Nat.le_of_not_lt fun hlt => h ⟨h0, hlt⟩)

theorem frameStep_currIdx (N g : Nat) (s : SyncState) :
    (frameStep N g s).currFrameResourceIndex =
      (s.currFrameResourceIndex + 1) % N := rfl

theorem runFrames_currIdx (N : Nat) (gs : List Nat) (s : SyncState)
    (hs : s.currFrameResourceIndex < N) :
    (runFrames N gs s).currFrameResourceIndex =
      (s.currFrameResourceIndex + gs.length) % N := by
  induction gs generalizing s with
  | nil =>
      simpa [runFrames] using (Nat.mod_eq_of_lt hs).symm
  | cons g gs ih =>
      have hN : 0 < N := Nat.lt_of_le_of_lt (Nat.zero_le _) hs
      rw [runFrames]
      rw [ih (frameStep N g s) (by rw [frameStep_currIdx]; exact Nat.mod_lt _ hN)]
      rw [frameStep_currIdx, Nat.mod_add_mod, List.length_cons]
      ring_nf

theorem runFrames_cons (N g : Nat) (gs : List Nat) (s : SyncState) :
    runFrames N (g :: gs) s = runFrames N gs (frameStep N g s) := rfl

theorem updateObjectCBs_fst (items : List RenderItem) (r : Region) :
    (updateObjectCBs items r).1 = items.map decDirtyItem := by
  induction items generalizing r with
  | nil => rfl
  | cons e rest ih =>
      by_cases h : 0 < e.NumFramesDirty <;>
        simp [updateObjectCBs, h, decDirtyItem, ih]

theorem updateMaterialCBs_fst (mats : List Material) (r : Region) :
    (updateMaterialCBs mats r).1 = mats.map decDirtyMat := by
  induction mats generalizing r with
  | nil => rfl
  | cons m rest ih =>
      by_cases h : 0 < m.NumFramesDirty <;>
        simp [updateMaterialCBs, h, decDirtyMat, ih]

theorem updateObjectCBs_snd_length (items : List RenderItem) (r : Region) :
    (updateObjectCBs items r).2.length = r.length := by
  induction items generalizing r with
  | nil => rfl
  | cons e rest ih =>
      by_cases h : 0 < e.NumFramesDirty <;>
        simp [updateObjectCBs, h, ih]

theorem updateMaterialCBs_snd_length (mats : List Material) (r : Region) :
    (updateMaterialCBs mats r).2.1.length = r.length := by
  induction mats generalizing r with
  | nil => rfl
  | cons m rest ih =>
      by_cases h : 0 < m.NumFramesDirty <;>
        simp [updateMaterialCBs, h, ih]

/-- Items that never address position `p` leave entry `p` of the region as
it was. -/
theorem updateObjectCBs_snd_getElem_of_notin (items : List RenderItem) (r : Region)
    (p : Nat) (h : ∀ e ∈ items, e.ObjCBIndex ≠ p) :
    (updateObjectCBs items r).2[p]? = r[p]? := by
  induction items generalizing r with
  | nil => rfl
  | cons e rest ih =>
      have he : e.ObjCBIndex ≠ p := h e (List.mem_cons_self _ _)
      have hrest : ∀ x ∈ rest, x.ObjCBIndex ≠ p :=
        fun x hx => h x (List.mem_cons_of_mem _ hx)
      by_cases hd : 0 < e.NumFramesDirty
      · simp only [updateObjectCBs, hd, if_pos]
        rw [ih _ hrest, List.getElem?_set_ne he]
      · simp only [updateObjectCBs, hd, if_neg, not_false_eq_true]
        exact ih _ hrest

/-- If a dirty item with index `p` is in the list and no item after it (or
before it) addresses `p`, the pass leaves the item's fresh record at entry
`p`. -/
theorem updateObjectCBs_snd_getElem_of_write (l₁ l₂ : List RenderItem)
    (ej : RenderItem) (r : Region) (p : Nat)
    (h₁ : ∀ e ∈ l₁, e.ObjCBIndex ≠ p) (h₂ : ∀ e ∈ l₂, e.ObjCBIndex ≠ p)
    (hj : ej.ObjCBIndex = p) (hd : 0 < ej.NumFramesDirty) (hp : p < r.length) :
    (updateObjectCBs (l₁ ++ ej :: l₂) r).2[p]? = some (some ej.World) := by
  induction l₁ generalizing r with
  | nil =>
      simp only [List.nil_append, updateObjectCBs, hd, if_pos]
      rw [updateObjectCBs_snd_getElem_of_notin _ _ _ h₂, hj,
        List.getElem?_set_self (by simp [hp])]
  | cons e rest ih =>
      have he : e.ObjCBIndex ≠ p := h₁ e (List.mem_cons_self _ _)
      have hrest : ∀ x ∈ rest, x.ObjCBIndex ≠ p :=
        fun x hx => h₁ x (List.mem_cons_of_mem _ hx)
      by_cases hde : 0 < e.NumFramesDirty
      · simp only [List.cons_append, updateObjectCBs, hde, if_pos]
        exact ih _ hrest (by simpa using hp)
      · simp only [List.cons_append, updateObjectCBs, hde, if_neg, not_false_eq_true]
        exact ih _ hrest hp

/-- Materials that never address `p` contribute no upload at index `p`. -/
theorem updateMaterialCBs_trace_count_zero (mats : List Material) (r : Region)
    (p : Nat) (h : ∀ m ∈ mats, m.MatCBIndex ≠ p) :
    ((updateMaterialCBs mats r).2.2).count p = 0 := by
  induction mats generalizing r with
  | nil => rfl
  | cons m rest ih =>
      have hm : m.MatCBIndex ≠ p := h m (List.mem_cons_self _ _)
      have hrest : ∀ x ∈ rest, x.MatCBIndex ≠ p :=
        fun x hx => h x (List.mem_cons_of_mem _ hx)
      by_cases hd : 0 < m.NumFramesDirty
      · simp only [updateMaterialCBs, hd, if_pos]
        rw [List.count_cons_of_ne (Ne.symm hm)]
        exact ih _ hrest
      · simp only [updateMaterialCBs, hd, if_neg, not_false_eq_true]
        exact ih _ hrest

/-- A material with a table-unique constant-buffer index is uploaded exactly
once per pass while dirty, and not at all once clean. -/
theorem updateMaterialCBs_trace_count (l₁ l₂ : List Material) (m : Material)
    (r : Region) (p : Nat)
    (h₁ : ∀ x ∈ l₁, x.MatCBIndex ≠ p) (h₂ : ∀ x ∈ l₂, x.MatCBIndex ≠ p)
    (hm : m.MatCBIndex = p) :
    ((updateMaterialCBs (l₁ ++ m :: l₂) r).2.2).count p =
      if 0 < m.NumFramesDirty then 1 else 0 := by
  induction l₁ generalizing r with
  | nil =>
      by_cases hd : 0 < m.NumFramesDirty
      · simp only [List.nil_append, updateMaterialCBs, hd, if_pos]
        rw [hm, List.count_cons_self,
          updateMaterialCBs_trace_count_zero _ _ _ h₂]
      · simp only [List.nil_append, updateMaterialCBs, hd, if_neg, not_false_eq_true]
        exact updateMaterialCBs_trace_count_zero _ _ _ h₂
  | cons x rest ih =>
      have hx : x.MatCBIndex ≠ p := h₁ x (List.mem_cons_self _ _)
      have hrest : ∀ y ∈ rest, y.MatCBIndex ≠ p :=
        fun y hy => h₁ y (List.mem_cons_of_mem _ hy)
      by_cases hd : 0 < x.NumFramesDirty
      · simp only [List.cons_append, updateMaterialCBs, hd, if_pos]
        rw [List.count_cons_of_ne (Ne.symm hx)]
        exact ih _ hrest
      · simp only [List.cons_append, updateMaterialCBs, hd, if_neg, not_false_eq_true]
        exact ih _ hrest

/-- Every dirty material's index shows up in the upload trace. -/
theorem updateMaterialCBs_trace_mem (mats : List Material) (r : Region)
    (m : Material) (hmem : m ∈ mats) (hd : 0 < m.NumFramesDirty) :
    m.MatCBIndex ∈ (updateMaterialCBs mats r).2.2 := by
  induction mats generalizing r with
  | nil => cases hmem
  | cons x rest ih =>
      rcases List.mem_cons.mp hmem with rfl | hmem'
      · simp only [updateMaterialCBs, hd, if_pos]
        exact List.mem_cons_self _ _
      · by_cases hdx : 0 < x.NumFramesDirty
        · simp only [updateMaterialCBs, hdx, if_pos]
          exact List.mem_cons_of_mem _ (ih _ hmem')
        · simp only [updateMaterialCBs, hdx, if_neg, not_false_eq_true]
          exact ih _ hmem'

/-- Materials that never address `p` leave entry `p` of the region as it
was. -/
theorem updateMaterialCBs_snd_getElem_of_notin (mats : List Material) (r : Region)
    (p : Nat) (h : ∀ m ∈ mats, m.MatCBIndex ≠ p) :
    (updateMaterialCBs mats r).2.1[p]? = r[p]? := by
  induction mats generalizing r with
  | nil => rfl
  | cons m rest ih =>
      have hm : m.MatCBIndex ≠ p := h m (List.mem_cons_self _ _)
      have hrest : ∀ x ∈ rest, x.MatCBIndex ≠ p :=
        fun x hx => h x (List.mem_cons_of_mem _ hx)
      by_cases hd : 0 < m.NumFramesDirty
      · simp only [updateMaterialCBs, hd, if_pos]
        rw [ih _ hrest, List.getElem?_set_ne hm]
      · simp only [updateMaterialCBs, hd, if_neg, not_false_eq_true]
        exact ih _ hrest

/-- A dirty material with a table-unique index gets its fresh record stored
at entry `p` of the current slot's material region. -/
theorem updateMaterialCBs_snd_getElem_of_write (l₁ l₂ : List Material)
    (m : Material) (r : Region) (p : Nat)
    (h₁ : ∀ x ∈ l₁, x.MatCBIndex ≠ p) (h₂ : ∀ x ∈ l₂, x.MatCBIndex ≠ p)
    (hm : m.MatCBIndex = p) (hd : 0 < m.NumFramesDirty) (hp : p < r.length) :
    (updateMaterialCBs (l₁ ++ m :: l₂) r).2.1[p]? = some (some m.MatTransform) := by
  induction l₁ generalizing r with
  | nil =>
      simp only [List.nil_append, updateMaterialCBs, hd, if_pos]
      rw [updateMaterialCBs_snd_getElem_of_notin _ _ _ h₂, hm,
        List.getElem?_set_self (by simp [hp])]
  | cons x rest ih =>
      have hx : x.MatCBIndex ≠ p := h₁ x (List.mem_cons_self _ _)
      have hrest : ∀ y ∈ rest, y.MatCBIndex ≠ p :=
        fun y hy => h₁ y (List.mem_cons_of_mem _ hy)
      by_cases hdx : 0 < x.NumFramesDirty
      · simp only [List.cons_append, updateMaterialCBs, hdx, if_pos]
        exact ih _ hrest (by simpa using hp)
      · simp only [List.cons_append, updateMaterialCBs, hdx, if_neg, not_false_eq_true]
        exact ih _ hrest hp

/- ----------------------------------------------------------------------
   Arithmetic of the ring traversal, and list-access helpers.
   ---------------------------------------------------------------------- -/

/-- Two distinct offsets below `N` land on distinct ring slots. -/
theorem ring_offset_inj (N c a b : Nat) (ha : a < N) (hb : b < N)
    (h : (c + a) % N = (c + b) % N) : a = b := by
  have hmod : a % N = b % N := Nat.ModEq.add_left_cancel' c h
  rw [Nat.mod_eq_of_lt ha, Nat.mod_eq_of_lt hb] at hmod
  exact hmod

/-- Every ring slot is reached by some offset below `N`. -/
theorem ring_offset_surj (N c t : Nat) (hN : 0 < N) (ht : t < N) :
    ∃ j, j < N ∧ (c + j) % N = t := by
  have hr : c % N < N := Nat.mod_lt _ hN
  refine ⟨(t + N - c % N) % N, Nat.mod_lt _ hN, ?_⟩
  rw [Nat.add_mod_mod]
  have hdm := Nat.div_add_mod c N
  have hx : c + (t + N - c % N) = N * (c / N) + (t + N) := by omega
  rw [hx, Nat.mul_add_mod, Nat.add_mod_right, Nat.mod_eq_of_lt ht]

theorem getD_set_of_ne {α : Type} (l : List α) (i t : Nat) (a d : α)
    (h : i ≠ t) : (l.set i a).getD t d = l.getD t d := by
  rw [List.getD_eq_getElem?_getD, List.getElem?_set_ne h,
    ← List.getD_eq_getElem?_getD]

theorem getD_set_eq {α : Type} (l : List α) (i : Nat) (a d : α)
    (h : i < l.length) : (l.set i a).getD i d = a := by
  rw [List.getD_eq_getElem?_getD, List.getElem?_set_self (by simp [h])]
  rfl

theorem decDirtyItem_ObjCBIndex (e : RenderItem) :
    (decDirtyItem e).ObjCBIndex = e.ObjCBIndex := by
  unfold decDirtyItem; split <;> rfl

theorem decDirtyMat_MatCBIndex (m : Material) :
    (decDirtyMat m).MatCBIndex = m.MatCBIndex := by
  unfold decDirtyMat; split <;> rfl

theorem frameAdvance_items (N : Nat) (s : AppState) :
    (frameAdvance N s).items = s.items.map decDirtyItem := by
  show (updateObjectCBs s.items _).1 = _
  exact updateObjectCBs_fst _ _

theorem frameAdvance_materials (N : Nat) (s : AppState) :
    (frameAdvance N s).materials = s.materials.map decDirtyMat := by
  show (updateMaterialCBs s.materials _).1 = _
  exact updateMaterialCBs_fst _ _

theorem frameAdvance_currIdx (N : Nat) (s : AppState) :
    (frameAdvance N s).currFrameResourceIndex =
      (s.currFrameResourceIndex + 1) % N := rfl

theorem frameAdvance_objRegions (N : Nat) (s : AppState) :
    (frameAdvance N s).objRegions =
      s.objRegions.set ((s.currFrameResourceIndex + 1) % N)
        (updateObjectCBs s.items
          (s.objRegions.getD ((s.currFrameResourceIndex + 1) % N) [])).2 := rfl

theorem frameAdvance_matRegions (N : Nat) (s : AppState) :
    (frameAdvance N s).matRegions =
      s.matRegions.set ((s.currFrameResourceIndex + 1) % N)
        (updateMaterialCBs s.materials
          (s.matRegions.getD ((s.currFrameResourceIndex + 1) % N) [])).2.1 := rfl

/-- Blocking behaviour of the fence wait: when the selected slot was
previously submitted and its checkpoint is not yet completed, the wait
returns only once the completed value has reached the checkpoint. -/
theorem updateWait_blocks (N : Nat) (s : SyncState)
    (hf : s.fences.getD ((s.currFrameResourceIndex + 1) % N) 0 ≠ 0)
    (hlt : s.completed < s.fences.getD ((s.currFrameResourceIndex + 1) % N) 0) :
    (updateWait N s).completed =
      s.fences.getD ((s.currFrameResourceIndex + 1) % N) 0 := by
  show (if _ ∧ _ then _ else _) = _
  rw [if_pos ⟨hf, hlt⟩]

/-- Core propagation invariant: starting from a table where the tracked item
sits between neighbours that never address its index `p` and carries dirty
count `d`, `k ≤ d` frame advances decrement its count to `d - k`, deposit its
fresh record in exactly the `k` ring slots visited, and leave entry `p` of
every other slot untouched. -/
theorem advanceFrames_propagation (N : Nat) (hN : 0 < N) (s : AppState)
    (hc : s.currFrameResourceIndex < N)
    (l₁ l₂ : List RenderItem) (v p : Nat) (d : Int)
    (hitems : s.items =
      l₁ ++ { World := v, NumFramesDirty := d, ObjCBIndex := p } :: l₂)
    (h₁ : ∀ e ∈ l₁, e.ObjCBIndex ≠ p) (h₂ : ∀ e ∈ l₂, e.ObjCBIndex ≠ p)
    (hlen : s.objRegions.length = N)
    (hplen : ∀ t, t < N → p < (s.objRegions.getD t []).length) :
    ∀ k : Nat, (k : Int) ≤ d →
    ∃ l₁' l₂',
      (advanceFrames N k s).items =
        l₁' ++ { World := v, NumFramesDirty := d - k, ObjCBIndex := p } :: l₂' ∧
      l₁'.length = l₁.length ∧
      (∀ e ∈ l₁', e.ObjCBIndex ≠ p) ∧ (∀ e ∈ l₂', e.ObjCBIndex ≠ p) ∧
      (advanceFrames N k s).currFrameResourceIndex =
        (s.currFrameResourceIndex + k) % N ∧
      (advanceFrames N k s).objRegions.length = N ∧
      (∀ t, t < N → p < ((advanceFrames N k s).objRegions.getD t []).length) ∧
      (∀ t, t < N → (∃ j, j < k ∧ (s.currFrameResourceIndex + 1 + j) % N = t) →
        ((advanceFrames N k s).objRegions.getD t [])[p]? = some (some v)) ∧
      (∀ t, t < N → (¬∃ j, j < k ∧ (s.currFrameResourceIndex + 1 + j) % N = t) →
        ((advanceFrames N k s).objRegions.getD t [])[p]? =
          (s.objRegions.getD t [])[p]?) := by
  intro k
  induction k with
  | zero =>
      intro _
      refine ⟨l₁, l₂, ?_, rfl, h₁, h₂, ?_, hlen, hplen, ?_, ?_⟩
      · simpa [advanceFrames] using hitems
      · simp [advanceFrames, Nat.mod_eq_of_lt hc]
      · intro t _ hex
        exact absurd hex (by simp)
      · intro t _ _
        simp [advanceFrames]
  | succ k ih =>
      intro hk1
      have hk : (k : Int) ≤ d := by push_cast at hk1 ⊢; omega
      obtain ⟨l₁', l₂', hi, hl, hm₁, hm₂, hcur, hrl, hrp, hin, hout⟩ := ih hk
      set c := s.currFrameResourceIndex with hcdef
      set A := advanceFrames N k s with hAdef
      have hstep : advanceFrames N (k + 1) s = frameAdvance N A := rfl
      have hidx : (A.currFrameResourceIndex + 1) % N = (c + (k + 1)) % N := by
        rw [hcur, Nat.mod_add_mod]
        ring_nf
      have hidxlt : (c + (k + 1)) % N < N := Nat.mod_lt _ hN
      have hdpos : 0 < d - (k : Int) := by push_cast at hk1; omega
      -- the tracked item's entry after this frame's object pass
      have hwrite :
          (updateObjectCBs A.items
              (A.objRegions.getD ((c + (k + 1)) % N) [])).2[p]? =
            some (some v) := by
        rw [hi]
        exact updateObjectCBs_snd_getElem_of_write l₁' l₂' _ _ p hm₁ hm₂ rfl
          hdpos (hrp _ hidxlt)
      refine ⟨l₁'.map decDirtyItem, l₂'.map decDirtyItem, ?_, ?_, ?_, ?_, ?_, ?_, ?_, ?_, ?_⟩
      · rw [hstep, frameAdvance_items, hi]
        simp only [List.map_append, List.map_cons]
        congr 2
        show decDirtyItem _ = _
        unfold decDirtyItem
        rw [if_pos hdpos]
        show ({ World := v, NumFramesDirty := d - (k:Int) - 1, ObjCBIndex := p }
          : RenderItem) = _
        congr 1
        push_cast
        ring
      · simpa using hl
      · intro e he
        obtain ⟨x, hx, rfl⟩ := List.mem_map.mp he
        rw [decDirtyItem_ObjCBIndex]
        exact hm₁ x hx
      · intro e he
        obtain ⟨x, hx, rfl⟩ := List.mem_map.mp he
        rw [decDirtyItem_ObjCBIndex]
        exact hm₂ x hx
      · rw [hstep, frameAdvance_currIdx, hidx]
      · rw [hstep, frameAdvance_objRegions, List.length_set]
        exact hrl
      · intro t ht
        rw [hstep, frameAdvance_objRegions, hidx]
        by_cases hti : (c + (k + 1)) % N = t
        · rw [hti, getD_set_eq _ _ _ _ (by rw [hrl]; exact hti ▸ hidxlt)]
          rw [updateObjectCBs_snd_length]
          exact hti ▸ hrp _ hidxlt
        · rw [getD_set_of_ne _ _ _ _ _ hti]
          exact hrp t ht
      · intro t ht hex
        rw [hstep, frameAdvance_objRegions, hidx]
        by_cases hti : (c + (k + 1)) % N = t
        · rw [hti, getD_set_eq _ _ _ _ (by rw [hrl]; exact hti ▸ hidxlt)]
          exact hti ▸ hwrite
        · rw [getD_set_of_ne _ _ _ _ _ hti]
          obtain ⟨j, hj, hjt⟩ := hex
          have hjk : j < k := by
            rcases Nat.lt_succ_iff_lt_or_eq.mp hj with h | rfl
            · exact h
            · exact absurd (by rw [← hjt]; ring_nf) hti
          exact hin t ht ⟨j, hjk, hjt⟩
      · intro t ht hnex
        rw [hstep, frameAdvance_objRegions, hidx]
        have hti : (c + (k + 1)) % N ≠ t := by
          intro h
          exact hnex ⟨k, Nat.lt_succ_self _, by rw [← h]; ring_nf⟩
        rw [getD_set_of_ne _ _ _ _ _ hti]
        exact hout t ht fun ⟨j, hj, hjt⟩ => hnex ⟨j, Nat.lt_succ_of_lt hj, hjt⟩

/-- Material analogue of the propagation invariant: a tracked material with
table-unique constant-buffer index `p` and dirty count `d` has its count
decremented once per frame while positive by `UpdateMaterialCBs`, its fresh
record deposited in exactly the `k` ring slots visited, and entry `p` of
every other slot's material region left untouched. -/
theorem advanceFrames_propagation_mat (N : Nat) (hN : 0 < N) (s : AppState)
    (hc : s.currFrameResourceIndex < N)
    (l₁ l₂ : List Material) (nm : String) (v p : Nat) (d : Int)
    (hmats : s.materials =
      l₁ ++ { Name := nm, MatCBIndex := p, MatTransform := v,
              NumFramesDirty := d } :: l₂)
    (h₁ : ∀ x ∈ l₁, x.MatCBIndex ≠ p) (h₂ : ∀ x ∈ l₂, x.MatCBIndex ≠ p)
    (hlen : s.matRegions.length = N)
    (hplen : ∀ t, t < N → p < (s.matRegions.getD t []).length) :
    ∀ k : Nat, (k : Int) ≤ d →
    ∃ l₁' l₂',
      (advanceFrames N k s).materials =
        l₁' ++ { Name := nm, MatCBIndex := p, MatTransform := v,
                 NumFramesDirty := d - k } :: l₂' ∧
      l₁'.length = l₁.length ∧
      (∀ x ∈ l₁', x.MatCBIndex ≠ p) ∧ (∀ x ∈ l₂', x.MatCBIndex ≠ p) ∧
      (advanceFrames N k s).currFrameResourceIndex =
        (s.currFrameResourceIndex + k) % N ∧
      (advanceFrames N k s).matRegions.length = N ∧
      (∀ t, t < N → p < ((advanceFrames N k s).matRegions.getD t []).length) ∧
      (∀ t, t < N → (∃ j, j < k ∧ (s.currFrameResourceIndex + 1 + j) % N = t) →
        ((advanceFrames N k s).matRegions.getD t [])[p]? = some (some v)) ∧
      (∀ t, t < N → (¬∃ j, j < k ∧ (s.currFrameResourceIndex + 1 + j) % N = t) →
        ((advanceFrames N k s).matRegions.getD t [])[p]? =
          (s.matRegions.getD t [])[p]?) := by
  intro k
  induction k with
  | zero =>
      intro _
      refine ⟨l₁, l₂, ?_, rfl, h₁, h₂, ?_, hlen, hplen, ?_, ?_⟩
      · simpa [advanceFrames] using hmats
      · simp [advanceFrames, Nat.mod_eq_of_lt hc]
      · intro t _ hex
        exact absurd hex (by simp)
      · intro t _ _
        simp [advanceFrames]
  | succ k ih =>
      intro hk1
      have hk : (k : Int) ≤ d := by push_cast at hk1 ⊢; omega
      obtain ⟨l₁', l₂', hi, hl, hm₁, hm₂, hcur, hrl, hrp, hin, hout⟩ := ih hk
      set c := s.currFrameResourceIndex with hcdef
      set A := advanceFrames N k s with hAdef
      have hstep : advanceFrames N (k + 1) s = frameAdvance N A := rfl
      have hidx : (A.currFrameResourceIndex + 1) % N = (c + (k + 1)) % N := by
        rw [hcur, Nat.mod_add_mod]
        ring_nf
      have hidxlt : (c + (k + 1)) % N < N := Nat.mod_lt _ hN
      have hdpos : 0 < d - (k : Int) := by push_cast at hk1; omega
      -- the tracked material's entry after this frame's material pass
      have hwrite :
          (updateMaterialCBs A.materials
              (A.matRegions.getD ((c + (k + 1)) % N) [])).2.1[p]? =
            some (some v) := by
        rw [hi]
        exact updateMaterialCBs_snd_getElem_of_write l₁' l₂' _ _ p hm₁ hm₂ rfl
          hdpos (hrp _ hidxlt)
      refine ⟨l₁'.map decDirtyMat, l₂'.map decDirtyMat, ?_, ?_, ?_, ?_, ?_, ?_, ?_, ?_, ?_⟩
      · rw [hstep, frameAdvance_materials, hi]
        simp only [List.map_append, List.map_cons]
        congr 2
        show decDirtyMat _ = _
        unfold decDirtyMat
        rw [if_pos hdpos]
        show ({ Name := nm
                MatCBIndex := p
                MatTransform := v
                NumFramesDirty := d - (k : Int) - 1 } : Material) = _
        congr 1
        push_cast
        ring
      · simpa using hl
      · intro x hx
        obtain ⟨y, hy, rfl⟩ := List.mem_map.mp hx
        rw [decDirtyMat_MatCBIndex]
        exact hm₁ y hy
      · intro x hx
        obtain ⟨y, hy, rfl⟩ := List.mem_map.mp hx
        rw [decDirtyMat_MatCBIndex]
        exact hm₂ y hy
      · rw [hstep, frameAdvance_currIdx, hidx]
      · rw [hstep, frameAdvance_matRegions, List.length_set]
        exact hrl
      · intro t ht
        rw [hstep, frameAdvance_matRegions, hidx]
        by_cases hti : (c + (k + 1)) % N = t
        · rw [hti, getD_set_eq _ _ _ _ (by rw [hrl]; exact hti ▸ hidxlt)]
          rw [updateMaterialCBs_snd_length]
          exact hti ▸ hrp _ hidxlt
        · rw [getD_set_of_ne _ _ _ _ _ hti]
          exact hrp t ht
      · intro t ht hex
        rw [hstep, frameAdvance_matRegions, hidx]
        by_cases hti : (c + (k + 1)) % N = t
        · rw [hti, getD_set_eq _ _ _ _ (by rw [hrl]; exact hti ▸ hidxlt)]
          exact hti ▸ hwrite
        · rw [getD_set_of_ne _ _ _ _ _ hti]
          obtain ⟨j, hj, hjt⟩ := hex
          have hjk : j < k := by
            rcases Nat.lt_succ_iff_lt_or_eq.mp hj with h | rfl
            · exact h
            · exact absurd (by rw [← hjt]; ring_nf) hti
          exact hin t ht ⟨j, hjk, hjt⟩
      · intro t ht hnex
        rw [hstep, frameAdvance_matRegions, hidx]
        have hti : (c + (k + 1)) % N ≠ t := by
          intro h
          exact hnex ⟨k, Nat.lt_succ_self _, by rw [← h]; ring_nf⟩
        rw [getD_set_of_ne _ _ _ _ _ hti]
        exact hout t ht fun ⟨j, hj, hjt⟩ => hnex ⟨j, Nat.lt_succ_of_lt hj, hjt⟩

/- ----------------------------------------------------------------------
   Claim theorems.
   ---------------------------------------------------------------------- -/

/-- C1: for every ring size N ≥ 1 and every sequence of frame advances with
arbitrary asynchronous GPU progress, when the CPU begins recording into the
ring slot selected by `Update`: if the slot was previously submitted
(checkpoint nonzero) and the completed value was still below the checkpoint,
the wait blocked until the completed value reached the checkpoint; and in
every case the slot's checkpoint is 0 or at most the observed completed
value — no ring slot is reused for recording while its previously submitted
GPU work is unfinished. -/
theorem C1_no_slot_reuse_before_gpu_done (N : Nat) (hN : 1 ≤ N)
    (gs : List Nat) (g : Nat) :
    (∀ w, w = gpuAdvance g (runFrames N gs (initSync N)) →
      w.fences.getD ((w.currFrameResourceIndex + 1) % N) 0 ≠ 0 →
      w.completed < w.fences.getD ((w.currFrameResourceIndex + 1) % N) 0 →
      (updateWait N w).completed =
        w.fences.getD ((w.currFrameResourceIndex + 1) % N) 0) ∧
    recordSafe (updateWait N (gpuAdvance g (runFrames N gs (initSync N)))) :=
  ⟨fun w _ hf hlt => updateWait_blocks N w hf hlt, updateWait_recordSafe N _⟩

theorem C1_no_slot_reuse_before_gpu_done_witness :
    1 ≤ 3 ∧
    ((∀ w, w = gpuAdvance 0 (runFrames 3 [0, 0, 0] (initSync 3)) →
        w.fences.getD ((w.currFrameResourceIndex + 1) % 3) 0 ≠ 0 →
        w.completed < w.fences.getD ((w.currFrameResourceIndex + 1) % 3) 0 →
        (updateWait 3 w).completed =
          w.fences.getD ((w.currFrameResourceIndex + 1) % 3) 0) ∧
      recordSafe (updateWait 3 (gpuAdvance 0 (runFrames 3 [0, 0, 0] (initSync 3))))) :=
  ⟨by decide, C1_no_slot_reuse_before_gpu_done 3 (by decide) [0, 0, 0] 0⟩

/-- C5: starting from initial frame-resource index 0, after the k-th call to
`Update` the current frame-resource index equals k mod N, and each further
frame advances it cyclically to (previous + 1) mod N. -/
theorem C5_ring_index_cycles (N : Nat) (hN : 1 ≤ N) (gs : List Nat) :
    (runFrames N gs (initSync N)).currFrameResourceIndex = gs.length % N ∧
    (∀ g, (frameStep N g (runFrames N gs (initSync N))).currFrameResourceIndex =
      ((runFrames N gs (initSync N)).currFrameResourceIndex + 1) % N) := by
  constructor
  · have h0 : (initSync N).currFrameResourceIndex < N := hN
    simpa [initSync] using runFrames_currIdx N gs (initSync N) h0
  · intro g
    exact frameStep_currIdx N g _

theorem C5_ring_index_cycles_witness :
    1 ≤ 3 ∧
    ((runFrames 3 [0, 0, 0, 0] (initSync 3)).currFrameResourceIndex = 4 % 3 ∧
      (∀ g, (frameStep 3 g (runFrames 3 [0, 0, 0, 0] (initSync 3))).currFrameResourceIndex =
        ((runFrames 3 [0, 0, 0, 0] (initSync 3)).currFrameResourceIndex + 1) % 3)) :=
  ⟨by decide, by
    have h := C5_ring_index_cycles 3 (by decide) [0, 0, 0, 0]
    simpa using h⟩

/-- C6: marking an item dirty assigns `NumFramesDirty = gNumFrameResources`,
so marking it twice in succession (no ring-slot visits between) leaves the
count exactly N, the same as marking it once — the count saturates and never
accumulates; the material path (`AnimateMaterials`, which assigns the same
way) saturates identically. -/
theorem C6_markDirty_saturates (N i v₁ v₂ : Nat) (s : AppState)
    (hi : i < s.items.length) :
    ((markItemDirty N i v₂ (markItemDirty N i v₁ s)).items[i]?.map
        (·.NumFramesDirty)) = some (N : Int) ∧
    ((markItemDirty N i v₁ s).items[i]?.map (·.NumFramesDirty)) = some (N : Int) ∧
    (∀ mats : List Material, ∀ m ∈ animateMaterials N (animateMaterials N mats),
      m.Name = "water" → m.NumFramesDirty = (N : Int)) := by
  have hsome : s.items[i]? = some s.items[i] := List.getElem?_eq_getElem hi
  refine ⟨?_, ?_, ?_⟩
  · simp [markItemDirty, List.getElem?_modify, hsome]
  · simp [markItemDirty, List.getElem?_modify, hsome]
  · intro mats m hm hname
    simp only [animateMaterials, List.map_map, List.mem_map] at hm
    obtain ⟨x, _, rfl⟩ := hm
    by_cases hx : x.Name = "water"
    · simp [hx]
    · exact absurd (by simpa [hx] using hname) hx

theorem C6_markDirty_saturates_witness :
    0 < 1 ∧
    (((markItemDirty 3 0 9 (markItemDirty 3 0 8
        { currFrameResourceIndex := 0, objRegions := [], matRegions := [],
          items := [{ World := 7, NumFramesDirty := 0, ObjCBIndex := 0 }],
          materials := [] })).items[0]?.map (·.NumFramesDirty)) = some (3 : Int) ∧
      ((markItemDirty 3 0 8
        { currFrameResourceIndex := 0, objRegions := [], matRegions := [],
          items := [{ World := 7, NumFramesDirty := 0, ObjCBIndex := 0 }],
          materials := [] }).items[0]?.map (·.NumFramesDirty)) = some (3 : Int) ∧
      (∀ mats : List Material, ∀ m ∈ animateMaterials 3 (animateMaterials 3 mats),
        m.Name = "water" → m.NumFramesDirty = (3 : Int))) :=
  ⟨by decide,
    C6_markDirty_saturates 3 0 8 9
      { currFrameResourceIndex := 0, objRegions := [], matRegions := [],
        items := [{ World := 7, NumFramesDirty := 0, ObjCBIndex := 0 }],
        materials := [] } (by decide)⟩

/-- C2: a drawable item — and equally a material — whose dirty count is set
to N and not mutated again has its count decremented exactly once per frame
while positive (N - k after k advances), its recomputed constants stand in
the corresponding (object, respectively material) upload regions of all N
ring slots after N frame advances (frame F+N-1), at which point the count
is 0; and after only k < N advances the not-yet-visited slot's entry at the
tracked index is still exactly what it was before — the constants appear in
no fewer than N frames. -/
theorem C2_dirty_count_propagation (N : Nat) (hN : 1 ≤ N) (s : AppState)
    (hc : s.currFrameResourceIndex < N) :
    (∀ (l₁ l₂ : List RenderItem) (v p : Nat),
      s.items =
        l₁ ++ { World := v, NumFramesDirty := (N : Int), ObjCBIndex := p } :: l₂ →
      (∀ e ∈ l₁, e.ObjCBIndex ≠ p) → (∀ e ∈ l₂, e.ObjCBIndex ≠ p) →
      s.objRegions.length = N →
      (∀ t, t < N → p < (s.objRegions.getD t []).length) →
      (∀ k, k ≤ N → ∃ l₁' l₂',
        (advanceFrames N k s).items =
          l₁' ++ { World := v, NumFramesDirty := (N : Int) - (k : Int),
                   ObjCBIndex := p } :: l₂' ∧
        l₁'.length = l₁.length) ∧
      (∀ t, t < N →
        ((advanceFrames N N s).objRegions.getD t [])[p]? = some (some v)) ∧
      (∃ l₁' l₂',
        (advanceFrames N N s).items =
          l₁' ++ { World := v, NumFramesDirty := 0, ObjCBIndex := p } :: l₂' ∧
        l₁'.length = l₁.length) ∧
      (∀ k, k < N →
        ((advanceFrames N k s).objRegions.getD
            ((s.currFrameResourceIndex + 1 + k) % N) [])[p]? =
          (s.objRegions.getD ((s.currFrameResourceIndex + 1 + k) % N) [])[p]?)) ∧
    (∀ (l₁ l₂ : List Material) (nm : String) (v p : Nat),
      s.materials =
        l₁ ++ { Name := nm, MatCBIndex := p, MatTransform := v,
                NumFramesDirty := (N : Int) } :: l₂ →
      (∀ x ∈ l₁, x.MatCBIndex ≠ p) → (∀ x ∈ l₂, x.MatCBIndex ≠ p) →
      s.matRegions.length = N →
      (∀ t, t < N → p < (s.matRegions.getD t []).length) →
      (∀ k, k ≤ N → ∃ l₁' l₂',
        (advanceFrames N k s).materials =
          l₁' ++ { Name := nm, MatCBIndex := p, MatTransform := v,
                   NumFramesDirty := (N : Int) - (k : Int) } :: l₂' ∧
        l₁'.length = l₁.length) ∧
      (∀ t, t < N →
        ((advanceFrames N N s).matRegions.getD t [])[p]? = some (some v)) ∧
      (∃ l₁' l₂',
        (advanceFrames N N s).materials =
          l₁' ++ { Name := nm, MatCBIndex := p, MatTransform := v,
                   NumFramesDirty := 0 } :: l₂' ∧
        l₁'.length = l₁.length) ∧
      (∀ k, k < N →
        ((advanceFrames N k s).matRegions.getD
            ((s.currFrameResourceIndex + 1 + k) % N) [])[p]? =
          (s.matRegions.getD ((s.currFrameResourceIndex + 1 + k) % N) [])[p]?)) := by
  have hN0 : 0 < N := hN
  constructor
  · intro l₁ l₂ v p hitems h₁ h₂ hlen hplen
    have prop := advanceFrames_propagation N hN0 s hc l₁ l₂ v p (N : Int)
      hitems h₁ h₂ hlen hplen
    refine ⟨?_, ?_, ?_, ?_⟩
    · intro k hk
      obtain ⟨l₁', l₂', hi, hl, _⟩ := prop k (by exact_mod_cast hk)
      exact ⟨l₁', l₂', hi, hl⟩
    · intro t ht
      obtain ⟨l₁', l₂', hi, hl, hm₁, hm₂, hcur, hrl, hrp, hin, hout⟩ :=
        prop N (le_refl _)
      exact hin t ht (ring_offset_surj N (s.currFrameResourceIndex + 1) t hN0 ht)
    · obtain ⟨l₁', l₂', hi, hl, _⟩ := prop N (le_refl _)
      simp only [sub_self] at hi
      exact ⟨l₁', l₂', hi, hl⟩
    · intro k hk
      obtain ⟨l₁', l₂', hi, hl, hm₁, hm₂, hcur, hrl, hrp, hin, hout⟩ :=
        prop k (by omega)
      refine hout _ (Nat.mod_lt _ hN0) ?_
      rintro ⟨j, hj, hjt⟩
      have := ring_offset_inj N (s.currFrameResourceIndex + 1) j k
        (Nat.lt_trans hj hk) hk hjt
      omega
  · intro l₁ l₂ nm v p hmats h₁ h₂ hlen hplen
    have prop := advanceFrames_propagation_mat N hN0 s hc l₁ l₂ nm v p (N : Int)
      hmats h₁ h₂ hlen hplen
    refine ⟨?_, ?_, ?_, ?_⟩
    · intro k hk
      obtain ⟨l₁', l₂', hi, hl, _⟩ := prop k (by exact_mod_cast hk)
      exact ⟨l₁', l₂', hi, hl⟩
    · intro t ht
      obtain ⟨l₁', l₂', hi, hl, hm₁, hm₂, hcur, hrl, hrp, hin, hout⟩ :=
        prop N (le_refl _)
      exact hin t ht (ring_offset_surj N (s.currFrameResourceIndex + 1) t hN0 ht)
    · obtain ⟨l₁', l₂', hi, hl, _⟩ := prop N (le_refl _)
      simp only [sub_self] at hi
      exact ⟨l₁', l₂', hi, hl⟩
    · intro k hk
      obtain ⟨l₁', l₂', hi, hl, hm₁, hm₂, hcur, hrl, hrp, hin, hout⟩ :=
        prop k (by omega)
      refine hout _ (Nat.mod_lt _ hN0) ?_
      rintro ⟨j, hj, hjt⟩
      have := ring_offset_inj N (s.currFrameResourceIndex + 1) j k
        (Nat.lt_trans hj hk) hk hjt
      omega

theorem C2_dirty_count_propagation_witness :
    (1 ≤ 3 ∧ demoWaterState.currFrameResourceIndex < 3 ∧
      demoWaterState.items =
        [] ++ { World := 7, NumFramesDirty := (3 : Int), ObjCBIndex := 0 } :: [] ∧
      demoWaterState.objRegions.length = 3 ∧
      (∀ t, t < 3 → 0 < (demoWaterState.objRegions.getD t []).length) ∧
      demoWaterState.materials =
        [{ Name := "grass", MatCBIndex := 0, MatTransform := 4,
           NumFramesDirty := 3 }] ++
          { Name := "water", MatCBIndex := 1, MatTransform := 5,
            NumFramesDirty := (3 : Int) } :: [] ∧
      demoWaterState.matRegions.length = 3 ∧
      (∀ t, t < 3 → 1 < (demoWaterState.matRegions.getD t []).length)) ∧
    (∀ t, t < 3 →
      ((advanceFrames 3 3 demoWaterState).objRegions.getD t [])[0]? =
        some (some 7)) ∧
    (∃ l₁' l₂',
      (advanceFrames 3 3 demoWaterState).items =
        l₁' ++ { World := 7, NumFramesDirty := 0, ObjCBIndex := 0 } :: l₂' ∧
      l₁'.length = ([] : List RenderItem).length) ∧
    (∀ t, t < 3 →
      ((advanceFrames 3 3 demoWaterState).matRegions.getD t [])[1]? =
        some (some 5)) ∧
    (∃ l₁' l₂',
      (advanceFrames 3 3 demoWaterState).materials =
        l₁' ++ { Name := "water", MatCBIndex := 1, MatTransform := 5,
                 NumFramesDirty := 0 } :: l₂' ∧
      l₁'.length =
        ([{ Name := "grass", MatCBIndex := 0, MatTransform := 4,
            NumFramesDirty := (3 : Int) }] : List Material).length) := by
  have h := C2_dirty_count_propagation 3 (by decide) demoWaterState (by decide)
  have hobj := h.1 [] [] 7 0 rfl (by decide) (by decide) (by decide) (by decide)
  have hmat := h.2
    [{ Name := "grass", MatCBIndex := 0, MatTransform := 4,
       NumFramesDirty := 3 }] [] "water" 5 1 rfl
    (by decide) (by decide) (by decide) (by decide)
  exact ⟨⟨by decide, by decide, rfl, by decide, by decide, rfl, by decide,
      by decide⟩,
    hobj.2.1, hobj.2.2.1, hmat.2.1, hmat.2.2.1⟩

/- ----------------------------------------------------------------------
   Reachable states of the frame loop, for the dirty-count range invariant.
   ---------------------------------------------------------------------- -/

theorem mem_modify {α : Type} (f : α → α) (i : Nat) (l : List α) (x : α)
    (hx : x ∈ List.modify f i l) : x ∈ l ∨ ∃ y ∈ l, x = f y := by
  obtain ⟨j, hj⟩ := List.mem_iff_getElem?.mp hx
  rw [List.getElem?_modify] at hj
  rcases h : l[j]? with _ | y
  · rw [h] at hj; cases hj
  · rw [h] at hj
    by_cases hij : i = j
    · simp only [hij, Option.map_eq_map, Option.map_some', if_pos,
        Option.some.injEq] at hj
      exact Or.inr ⟨y, List.getElem?_mem h, hj.symm⟩
    · simp only [hij, Option.map_eq_map, Option.map_some', if_neg,
        not_false_eq_true, Option.some.injEq] at hj
      exact Or.inl (hj ▸ List.getElem?_mem h)

theorem decDirtyItem_bounds (N : Int) (e : RenderItem)
    (h0 : 0 ≤ e.NumFramesDirty) (h1 : e.NumFramesDirty ≤ N) :
    0 ≤ (decDirtyItem e).NumFramesDirty ∧ (decDirtyItem e).NumFramesDirty ≤ N := by
  unfold decDirtyItem
  split
  next h =>
    exact ⟨by show (0 : Int) ≤ e.NumFramesDirty - 1; omega,
      by show e.NumFramesDirty - 1 ≤ N; omega⟩
  next h => exact ⟨h0, h1⟩

theorem decDirtyMat_bounds (N : Int) (m : Material)
    (h0 : 0 ≤ m.NumFramesDirty) (h1 : m.NumFramesDirty ≤ N) :
    0 ≤ (decDirtyMat m).NumFramesDirty ∧ (decDirtyMat m).NumFramesDirty ≤ N := by
  unfold decDirtyMat
  split
  next h =>
    exact ⟨by show (0 : Int) ≤ m.NumFramesDirty - 1; omega,
      by show m.NumFramesDirty - 1 ≤ N; omega⟩
  next h => exact ⟨h0, h1⟩

/-- C9: in every state reachable by any sequence of frame advances and
mutations, every item's and every material's `NumFramesDirty` lies in
[0, N]: counts start at N, the passes decrement only when strictly
positive, and mutation resets by assignment to N. -/
theorem C9_dirty_count_range (N : Nat) (s : AppState) (h : Reachable N s) :
    (∀ e ∈ s.items, 0 ≤ e.NumFramesDirty ∧ e.NumFramesDirty ≤ (N : Int)) ∧
    (∀ m ∈ s.materials, 0 ≤ m.NumFramesDirty ∧ m.NumFramesDirty ≤ (N : Int)) := by
  induction h with
  | init s hi hm =>
      constructor
      · intro e he
        rw [hi e he]
        exact ⟨Int.natCast_nonneg N, le_refl _⟩
      · intro m hm'
        rw [hm m hm']
        exact ⟨Int.natCast_nonneg N, le_refl _⟩
  | advance _ ih =>
      rw [frameAdvance_items, frameAdvance_materials]
      constructor
      · intro e he
        obtain ⟨x, hx, rfl⟩ := List.mem_map.mp he
        exact decDirtyItem_bounds _ x (ih.1 x hx).1 (ih.1 x hx).2
      · intro m hm'
        obtain ⟨x, hx, rfl⟩ := List.mem_map.mp hm'
        exact decDirtyMat_bounds _ x (ih.2 x hx).1 (ih.2 x hx).2
  | texUpdate _ ih =>
      rename_i s' _
      show _ ∧ _
      rw [show texWavesUpdate N s' =
        frameAdvance N { s' with materials := animateMaterials N s'.materials }
        from rfl]
      rw [frameAdvance_items, frameAdvance_materials]
      constructor
      · intro e he
        obtain ⟨x, hx, rfl⟩ := List.mem_map.mp he
        exact decDirtyItem_bounds _ x (ih.1 x hx).1 (ih.1 x hx).2
      · intro m hm'
        obtain ⟨x, hx, rfl⟩ := List.mem_map.mp hm'
        have hx' : x ∈ animateMaterials N s'.materials := hx
        simp only [animateMaterials, List.mem_map] at hx'
        obtain ⟨y, hy, rfl⟩ := hx'
        by_cases hw : y.Name = "water"
        · refine decDirtyMat_bounds _ _ ?_ ?_ <;> simp [hw]
        · refine decDirtyMat_bounds _ _ ?_ ?_ <;> simp [hw]
          · exact (ih.2 y hy).1
          · exact (ih.2 y hy).2
  | markItem i v _ ih =>
      constructor
      · intro e he
        rcases mem_modify _ _ _ _ he with h' | ⟨y, hy, rfl⟩
        · exact ih.1 e h'
        · exact ⟨Int.natCast_nonneg N, le_refl _⟩
      · exact ih.2
  | markMaterial i v _ ih =>
      constructor
      · exact ih.1
      · intro m hm'
        rcases mem_modify _ _ _ _ hm' with h' | ⟨y, hy, rfl⟩
        · exact ih.2 m h'
        · exact ⟨Int.natCast_nonneg N, le_refl _⟩

theorem C9_dirty_count_range_witness :
    Reachable 3 (frameAdvance 3 demoPropState) ∧
    ((∀ e ∈ (frameAdvance 3 demoPropState).items,
        0 ≤ e.NumFramesDirty ∧ e.NumFramesDirty ≤ (3 : Int)) ∧
      (∀ m ∈ (frameAdvance 3 demoPropState).materials,
        0 ≤ m.NumFramesDirty ∧ m.NumFramesDirty ≤ (3 : Int))) :=
  have hr : Reachable 3 (frameAdvance 3 demoPropState) :=
    Reachable.advance (Reachable.init demoPropState (by decide) (by decide))
  ⟨hr, C9_dirty_count_range 3 _ hr⟩

/-- C10: `AnimateMaterials` runs unconditionally in every `TexWavesApp`
`Update` and re-assigns the water material's dirty count to N before
`UpdateMaterialCBs` runs, so on every single `Update` the water material's
constants are uploaded into the current ring slot, its dirty count ends
every `Update` at N - 1, and with the source's `gNumFrameResources` it
never ends an `Update` clean (count 0). -/
theorem C10_water_material_never_clean (N : Nat) (hN : 1 ≤ N) (s : AppState) :
    (∀ m ∈ s.materials, m.Name = "water" →
      m.MatCBIndex ∈ (texWavesUpdateTraced N s).2) ∧
    (∀ m' ∈ (texWavesUpdate N s).materials, m'.Name = "water" →
      m'.NumFramesDirty = (N : Int) - 1) ∧
    (∀ m' ∈ (texWavesUpdate gNumFrameResources s).materials, m'.Name = "water" →
      m'.NumFramesDirty ≠ 0) := by
  have upload : ∀ M : Nat, 1 ≤ M → ∀ m ∈ s.materials, m.Name = "water" →
      m.MatCBIndex ∈ (texWavesUpdateTraced M s).2 := by
    intro M hM m hm hw
    show m.MatCBIndex ∈ (updateMaterialCBs (animateMaterials M s.materials)
      (s.matRegions.getD ((s.currFrameResourceIndex + 1) % M) [])).2.2
    have hmem :
        (({ m with
              MatTransform := m.MatTransform + 1
              NumFramesDirty := (M : Int) } : Material) ∈
          animateMaterials M s.materials) := by
      simp only [animateMaterials, List.mem_map]
      exact ⟨m, hm, by rw [if_pos hw]⟩
    exact updateMaterialCBs_trace_mem (animateMaterials M s.materials)
      (s.matRegions.getD ((s.currFrameResourceIndex + 1) % M) [])
      { m with
          MatTransform := m.MatTransform + 1
          NumFramesDirty := (M : Int) }
      hmem (by show (0 : Int) < (M : Int); exact_mod_cast hM)
  have dirty : ∀ M : Nat, 1 ≤ M → ∀ m' ∈ (texWavesUpdate M s).materials,
      m'.Name = "water" → m'.NumFramesDirty = (M : Int) - 1 := by
    intro M hM m' hm' hw
    rw [show texWavesUpdate M s =
      frameAdvance M { s with materials := animateMaterials M s.materials }
      from rfl, frameAdvance_materials] at hm'
    obtain ⟨x, hx, rfl⟩ := List.mem_map.mp hm'
    simp only [animateMaterials, List.mem_map] at hx
    obtain ⟨y, hy, rfl⟩ := hx
    by_cases hwy : y.Name = "water"
    · rw [if_pos hwy]
      unfold decDirtyMat
      rw [if_pos (by show (0 : Int) < (M : Int); exact_mod_cast hM)]
    · exfalso
      apply hwy
      revert hw
      rw [if_neg hwy]
      unfold decDirtyMat
      split <;> exact fun h => h
  refine ⟨upload N hN, dirty N hN, ?_⟩
  intro m' hm' hw
  rw [dirty gNumFrameResources (by decide) m' hm' hw]
  decide

theorem C10_water_material_never_clean_witness :
    1 ≤ 3 ∧
    ((∀ m ∈ (demoWaterState).materials, m.Name = "water" →
        m.MatCBIndex ∈ (texWavesUpdateTraced 3 demoWaterState).2) ∧
      (∀ m' ∈ (texWavesUpdate 3 demoWaterState).materials, m'.Name = "water" →
        m'.NumFramesDirty = (3 : Int) - 1) ∧
      (∀ m' ∈ (texWavesUpdate gNumFrameResources demoWaterState).materials,
        m'.Name = "water" → m'.NumFramesDirty ≠ 0)) :=
  ⟨by decide, C10_water_material_never_clean 3 (by decide) demoWaterState⟩

/-- C8: when a material with a table-unique constant-buffer index is dirty,
the per-frame material pass performs exactly one material-constants upload
for it (counted on the `CopyData` trace), and that single upload lands at
the material's index in the current ring slot's material region — for every
item table whatsoever, since `UpdateMaterialCBs` iterates over the material
table and never over the drawable items that reference the material. -/
theorem C8_one_upload_per_material_per_slot (N : Nat) (hN : 1 ≤ N)
    (s : AppState) (l₁ l₂ : List Material) (m : Material)
    (hmats : s.materials = l₁ ++ m :: l₂)
    (h₁ : ∀ x ∈ l₁, x.MatCBIndex ≠ m.MatCBIndex)
    (h₂ : ∀ x ∈ l₂, x.MatCBIndex ≠ m.MatCBIndex)
    (hd : 0 < m.NumFramesDirty)
    (hlen : s.matRegions.length = N)
    (hcap : m.MatCBIndex <
      (s.matRegions.getD ((s.currFrameResourceIndex + 1) % N) []).length) :
    ∀ items : List RenderItem,
      ((frameAdvanceTraced N { s with items := items }).2).count m.MatCBIndex = 1 ∧
      ((frameAdvanceTraced N { s with items := items }).1.matRegions.getD
          ((s.currFrameResourceIndex + 1) % N) [])[m.MatCBIndex]? =
        some (some m.MatTransform) := by
  intro items
  have hidx : (s.currFrameResourceIndex + 1) % N < N := Nat.mod_lt _ hN
  constructor
  · show ((updateMaterialCBs s.materials
        (s.matRegions.getD ((s.currFrameResourceIndex + 1) % N) [])).2.2).count
        m.MatCBIndex = 1
    rw [hmats, updateMaterialCBs_trace_count l₁ l₂ m _ _ h₁ h₂ rfl, if_pos hd]
  · show ((s.matRegions.set ((s.currFrameResourceIndex + 1) % N)
        (updateMaterialCBs s.materials
          (s.matRegions.getD ((s.currFrameResourceIndex + 1) % N) [])).2.1).getD
        ((s.currFrameResourceIndex + 1) % N) [])[m.MatCBIndex]? =
      some (some m.MatTransform)
    rw [getD_set_eq _ _ _ _ (by rw [hlen]; exact hidx)]
    rw [hmats]
    exact updateMaterialCBs_snd_getElem_of_write l₁ l₂ m _ _ h₁ h₂ rfl hd hcap

theorem C8_one_upload_per_material_per_slot_witness :
    (1 ≤ 3 ∧
      demoWaterState.materials =
        [{ Name := "grass", MatCBIndex := 0, MatTransform := 4,
           NumFramesDirty := 3 }] ++
          { Name := "water", MatCBIndex := 1, MatTransform := 5,
            NumFramesDirty := 3 } :: [] ∧
      demoWaterState.matRegions.length = 3) ∧
    (((frameAdvanceTraced 3 { demoWaterState with
          items := [] }).2).count 1 = 1 ∧
      ((frameAdvanceTraced 3 { demoWaterState with
          items := [] }).1.matRegions.getD
          ((demoWaterState.currFrameResourceIndex + 1) % 3) [])[1]? =
        some (some 5)) :=
  ⟨⟨by decide, rfl, by decide⟩,
    C8_one_upload_per_material_per_slot 3 (by decide) demoWaterState
      [{ Name := "grass", MatCBIndex := 0, MatTransform := 4,
         NumFramesDirty := 3 }] []
      { Name := "water", MatCBIndex := 1, MatTransform := 5,
        NumFramesDirty := 3 }
      rfl (by decide) (by decide) (by decide) (by decide) (by decide) []⟩

theorem buildConstantBufferViews_length (objCount : Nat) (base : Nat → Nat)
    (alignedSize N : Nat) :
    (buildConstantBufferViews objCount base alignedSize N).length =
      N * objCount := by
  induction N with
  | zero => simp [buildConstantBufferViews]
  | succ n ih =>
      simp [buildConstantBufferViews, ih, Nat.succ_mul]

theorem buildConstantBufferViews_getElem (objCount : Nat) (base : Nat → Nat)
    (alignedSize N f i : Nat) (hf : f < N) (hi : i < objCount) :
    (buildConstantBufferViews objCount base alignedSize N)[f * objCount + i]? =
      some (base f + i * alignedSize) := by
  induction N with
  | zero => omega
  | succ n ih =>
      rw [buildConstantBufferViews]
      rcases Nat.lt_succ_iff_lt_or_eq.mp hf with h | rfl
      · rw [List.getElem?_append, if_pos (by
          rw [buildConstantBufferViews_length]
          have : f + 1 ≤ n := h
          calc f * objCount + i < f * objCount + objCount := by omega
            _ = (f + 1) * objCount := by ring
            _ ≤ n * objCount := Nat.mul_le_mul_right _ this)]
        exact ih h
      · rw [List.getElem?_append, if_neg (by
          rw [buildConstantBufferViews_length]; omega)]
        rw [buildConstantBufferViews_length]
        have hsub : f * objCount + i - f * objCount = i := by omega
        rw [hsub, List.getElem?_map]
        simp [List.getElem?_range, hi]

theorem updateObjectCBsChecked_isSome (items : List RenderItem)
    (b : UploadBuffer) (h : ∀ e ∈ items, e.ObjCBIndex < b.capacity) :
    (updateObjectCBsChecked items b).isSome := by
  induction items generalizing b with
  | nil => rfl
  | cons e rest ih =>
      have he : e.ObjCBIndex < b.capacity := h e (List.mem_cons_self _ _)
      have hrest : ∀ x ∈ rest, x.ObjCBIndex < b.capacity :=
        fun x hx => h x (List.mem_cons_of_mem _ hx)
      by_cases hd : 0 < e.NumFramesDirty
      · simp only [updateObjectCBsChecked, hd, if_pos, UploadBuffer.write,
          he, ite_true]
        have hb' := ih { b with data := b.data.set e.ObjCBIndex (some e.World) }
          (fun x hx => hrest x hx)
        rcases hm : updateObjectCBsChecked rest
            { b with data := b.data.set e.ObjCBIndex (some e.World) } with _ | out
        · rw [hm] at hb'; cases hb'
        · rfl
      · simp only [updateObjectCBsChecked, hd, if_neg, not_false_eq_true]
        have hb' := ih b hrest
        rcases hm : updateObjectCBsChecked rest b with _ | out
        · rw [hm] at hb'; cases hb'
        · rfl

/-- C3: for every ring slot s and object index i, the address the write
path stores object i's constants at (slot-s buffer base plus the CopyData
offset) is identical to the address the bind/draw path uses when drawing
with slot s current: computed directly in the TexWaves variant
(line 1504), and stored behind the bound descriptor-heap index
`s * objCount + i` in the Shapes variant (lines 453 / 1105). -/
theorem C3_write_bind_address_agree (base : Nat → Nat)
    (alignedSize N objCount s i : Nat) (hs : s < N) (hi : i < objCount) :
    texDrawObjAddress base alignedSize s i =
      writeAddress base alignedSize s i ∧
    (buildConstantBufferViews objCount base alignedSize N)[
        shapesCbvIndexDraw objCount s i]? =
      some (writeAddress base alignedSize s i) :=
  ⟨rfl, buildConstantBufferViews_getElem objCount base alignedSize N s i hs hi⟩

theorem C3_write_bind_address_agree_witness :
    (1 < 3 ∧ 1 < 2) ∧
    (texDrawObjAddress (fun t => 4096 * t) 256 1 1 =
        writeAddress (fun t => 4096 * t) 256 1 1 ∧
      (buildConstantBufferViews 2 (fun t => 4096 * t) 256 3)[
          shapesCbvIndexDraw 2 1 1]? =
        some (writeAddress (fun t => 4096 * t) 256 1 1)) :=
  ⟨⟨by decide, by decide⟩,
    C3_write_bind_address_agree (fun t => 4096 * t) 256 3 2 1 1
      (by decide) (by decide)⟩

/-- C4 is false as stated: for slot 1 of a one-drawable scene, object 0's
constants sit inside that slot's upload region at record offset
0 (= 0 × alignedRecordSize), not at the claimed slot-index × drawable-count
+ object-index = 1 — the offset inside a slot's region does not depend on
the slot index. -/
theorem C4_slot_offset_counterexample :
    objOffsetInRegion 1 0 ≠ claimedSlotOffset 1 1 0 := by decide

/-- C4 (amended): inside any ring slot's upload region, object i's
constants sit at offset i × alignedRecordSize — the same formula for the
write path (`UploadBuffer.writeByteOffset`) and the bind/draw path, and
independent of the slot index; the quantity slot-index × drawable-count +
object-index is instead the descriptor-heap index of the ShapesApp
variant, identical between heap construction and draw-time binding. -/
theorem C4_slot_offset_amended (alignedSize objCount s i : Nat) :
    objOffsetInRegion alignedSize i = i * alignedSize ∧
    (∀ b : UploadBuffer, b.alignedRecordSize = alignedSize →
      b.writeByteOffset i = objOffsetInRegion alignedSize i) ∧
    shapesHeapIndexBuild objCount s i = shapesCbvIndexDraw objCount s i := by
  refine ⟨rfl, ?_, rfl⟩
  intro b hb
  unfold UploadBuffer.writeByteOffset objOffsetInRegion
  rw [hb]

theorem C4_slot_offset_amended_witness :
    ((⟨256, 4, [none, none, none, none]⟩ : UploadBuffer).alignedRecordSize
        = 256) ∧
    (objOffsetInRegion 256 2 = 2 * 256 ∧
      (⟨256, 4, [none, none, none, none]⟩ :
          UploadBuffer).writeByteOffset 2 = objOffsetInRegion 256 2 ∧
      shapesHeapIndexBuild 4 1 2 = shapesCbvIndexDraw 4 1 2) :=
  have h := C4_slot_offset_amended 256 4 1 2
  ⟨rfl, h.1, h.2.1 ⟨256, 4, [none, none, none, none]⟩ rfl, h.2.2⟩

/-- C7: the upload region's write copies the record to byte offset
index × alignedRecordSize, stores it at the record index leaving the rest
of the region intact, and reports out-of-range (`none`) whenever
index ≥ capacity — never a silent truncation; and when each slot's region
is sized to the total drawable count (`BuildFrameResources`) and every
item's `ObjCBIndex` is below that count (`BuildRenderItems` assigns
`cbindex++` sequentially), the object pass never reaches the failure
branch; a frame advance keeps the index discipline, so the branch stays
unreachable throughout the frame loop. -/
theorem C7_write_out_of_range_fails_loudly (b : UploadBuffer) (i v : Nat)
    (N : Nat) (s : AppState) :
    (b.capacity ≤ i → b.write i v = none) ∧
    (i < b.capacity →
      b.write i v = some { b with data := b.data.set i (some v) }) ∧
    b.writeByteOffset i = i * b.alignedRecordSize ∧
    (∀ items : List RenderItem,
      b.capacity = buildFrameResourcesObjCapacity items →
      (∀ e ∈ items, e.ObjCBIndex < items.length) →
      (updateObjectCBsChecked items b).isSome) ∧
    ((∀ e ∈ s.items, e.ObjCBIndex < s.items.length) →
      ∀ e ∈ (frameAdvance N s).items,
        e.ObjCBIndex < (frameAdvance N s).items.length) := by
  refine ⟨?_, ?_, rfl, ?_, ?_⟩
  · intro h
    unfold UploadBuffer.write
    rw [if_neg (by omega)]
  · intro h
    unfold UploadBuffer.write
    rw [if_pos h]
  · intro items hcap hidx
    exact updateObjectCBsChecked_isSome items b
      (fun e he => by rw [hcap, buildFrameResourcesObjCapacity]; exact hidx e he)
  · intro hidx e he
    rw [frameAdvance_items] at he ⊢
    obtain ⟨x, hx, rfl⟩ := List.mem_map.mp he
    rw [decDirtyItem_ObjCBIndex, List.length_map]
    exact hidx x hx

theorem C7_write_out_of_range_fails_loudly_witness :
    ((⟨256, 1, [none]⟩ : UploadBuffer).capacity ≤ 5 ∧
      (0 : Nat) < (⟨256, 1, [none]⟩ : UploadBuffer).capacity ∧
      (⟨256, 1, [none]⟩ : UploadBuffer).capacity =
        buildFrameResourcesObjCapacity demoPropState.items ∧
      (∀ e ∈ demoPropState.items, e.ObjCBIndex < demoPropState.items.length)) ∧
    ((⟨256, 1, [none]⟩ : UploadBuffer).write 5 9 = none ∧
      (⟨256, 1, [none]⟩ : UploadBuffer).write 0 9 =
        some ⟨256, 1, [some 9]⟩ ∧
      (updateObjectCBsChecked demoPropState.items
        (⟨256, 1, [none]⟩ : UploadBuffer)).isSome ∧
      (∀ e ∈ (frameAdvance 3 demoPropState).items,
        e.ObjCBIndex < (frameAdvance 3 demoPropState).items.length)) := by
  have h := C7_write_out_of_range_fails_loudly
    (⟨256, 1, [none]⟩ : UploadBuffer) 5 9 3 demoPropState
  have h0 := C7_write_out_of_range_fails_loudly
    (⟨256, 1, [none]⟩ : UploadBuffer) 0 9 3 demoPropState
  refine ⟨⟨by decide, by decide, by decide, by decide⟩, ?_, ?_, ?_, ?_⟩
  · exact h.1 (by decide)
  · exact h0.2.1 (by decide)
  · exact h.2.2.2.1 demoPropState.items (by decide) (by decide)
  · exact h.2.2.2.2 (by decide)
